import Mathlib

/-!
# funcs/getcode.go : `GetSourceCode` and `GetAllSourceCode`

A shallow embedding of the two functions of `package funcs`, together with the
library calls they make, and the properties of the batch driver and of the fetcher
that follow from the code.

Conventions of the embedding.

* A Go `string` holding UTF-8 text is a `List Char`; the Go builtin `len` counts the
  bytes of the UTF-8 encoding (`len`), while `List.length` counts characters.
* Separators given to `strings.Split` in the source are the one-byte strings `"\n"`
  and `";"`; they are passed as a `Char`.
* A Go call either returns or panics (`Result`).  An `error` value is `Error`.
* Everything outside the process is explicit: the network, the file system, the
  address normalisation and the entity tables are fields of `Env`; the files and the
  log are fields of `World`.
-/

namespace Etherscan

/-! ## Strings -/

/-- A Go string holding UTF-8 text, as its sequence of characters. -/
abbrev GoString := List Char

/-- Number of bytes of the UTF-8 encoding of one character (`utf8.RuneLen`). -/
def runeLen (c : Char) : Nat :=
  if c.toNat < 0x80 then 1
  else if c.toNat < 0x800 then 2
  else if c.toNat < 0x10000 then 3
  else 4

/-- The Go builtin `len` on a string: the number of bytes. -/
def len : GoString → Nat
  | [] => 0
  | c :: cs => runeLen c + len cs

/-- The function `strings.Index(s, sep)` for a one-byte separator: the position (counted in
characters of the remaining text) of the first occurrence, `none` for Go's `-1`. -/
def Index : GoString → Char → Option Nat
  | [], _ => none
  | c :: cs, sep => if c = sep then some 0 else (Index cs sep).map (· + 1)

/-- The function `strings.Count(s, sep)` for a one-byte separator. -/
def Count : GoString → Char → Nat
  | [], _ => 0
  | c :: cs, sep => (if c = sep then 1 else 0) + Count cs sep

/-- The loop of `strings.genSplit`: at most `n` further cuts; each cut takes the text
before the first separator and continues behind it, the rest is the last piece. -/
def genSplit : Nat → GoString → Char → List GoString
  | 0, s, _ => [s]
  | n + 1, s, sep =>
    match Index s sep with
    | none => [s]
    | some m => s.take m :: genSplit n (s.drop (m + 1)) sep

/-- The function `strings.Split(s, sep)`: `genSplit` with `Count(s, sep) + 1` pieces. -/
def Split (s : GoString) (sep : Char) : List GoString :=
  genSplit (Count s sep) s sep

/-- The function `strings.Join(elems, sep)` for a one-byte separator. -/
def Join (elems : List GoString) (sep : Char) : GoString :=
  [sep].intercalate elems

/-! ## Values of the Go runtime -/

/-- A Go `error` value, identified with its message. -/
structure Error where
  msg : String
  deriving DecidableEq, Repr

/-- The function `errors.New`. -/
def errorsNew (text : String) : Error := ⟨text⟩

/-- The run-time panics the two functions can raise. -/
inductive Panic where
  | indexOutOfRange (index length : Nat)
  | nilDereference
  deriving DecidableEq, Repr

/-- Outcome of a Go call: it returns a value or it panics. -/
inductive Result (α : Type) where
  | ret (a : α)
  | panic (p : Panic)
  deriving DecidableEq, Repr

/-- Whether a call panicked. -/
def Result.isPanic {α : Type} : Result α → Bool
  | .ret _ => false
  | .panic _ => true

/-! ## HTML documents (`golang.org/x/net/html`, `goquery`) -/

/-- The type `html.NodeType`. -/
inductive NodeType where
  | ErrorNode | TextNode | DocumentNode | ElementNode | CommentNode | DoctypeNode
  deriving DecidableEq, Repr

/-- The type `html.Attribute`. -/
structure Attribute where
  Namespace : GoString
  Key : GoString
  Val : GoString
  deriving DecidableEq, Repr

/-- The type `html.Node`: type, data, attributes and the children in sibling order. -/
inductive Node where
  | mk (typ : NodeType) (Data : GoString) (Attr : List Attribute) (children : List Node)

/-- Field `Type` of a node. -/
def Node.typ : Node → NodeType
  | .mk t _ _ _ => t

/-- Field `Data` of a node. -/
def Node.Data : Node → GoString
  | .mk _ d _ _ => d

/-- Field `Attr` of a node. -/
def Node.Attr : Node → List Attribute
  | .mk _ _ a _ => a

/-- The child nodes, first to last. -/
def Node.children : Node → List Node
  | .mk _ _ _ cs => cs

/-- Field `FirstChild` of a node: `none` is the nil pointer. -/
def Node.FirstChild (n : Node) : Option Node :=
  n.children.head?

/-- The selector `#id`: an element node carrying an attribute `id` with that value. -/
def idSelector (id : GoString) (n : Node) : Bool :=
  decide (n.typ = NodeType.ElementNode) &&
    n.Attr.any (fun a => decide (a.Key = "id".toList) && decide (a.Val = id))

mutual
/-- The nodes of the subtree of a node that match, in document order
(`Selector.MatchAll`). -/
def matchAll (sel : Node → Bool) : Node → List Node
  | .mk t d a cs =>
    (if sel (.mk t d a cs) then [.mk t d a cs] else []) ++ matchAllList sel cs
/-- The matching nodes of the subtrees of a list of siblings, in document order. -/
def matchAllList (sel : Node → Bool) : List Node → List Node
  | [] => []
  | c :: cs => matchAll sel c ++ matchAllList sel cs
end

/-- The call `doc.Find(selector)` on a document: the matching descendants of the root, in
document order (`Selection.Nodes`). -/
def Find (doc : Node) (sel : Node → Bool) : List Node :=
  doc.children.flatMap
    (fun c => if c.typ = NodeType.ElementNode then matchAll sel c else [])

/-! ## Entity decoding (`golang.org/x/net/html`, `escape.go`)

The decoder `html.UnescapeString`, written after `unescape` and `unescapeEntity`.  The
library decodes in place, the write cursor never passing the read cursor; here the
decoded text is built as a new list.  The scans of the library run over bytes and go on
only with ASCII letters, digits and `;`, so that over characters they stop at the same
places.  The tables `entity` and `entity2` of the library are a parameter, except for
the two entries `amp;` and `lt;`.
-/

/-- The test `'0' <= c && c <= '9'`. -/
def isDigit (c : Char) : Bool := decide (48 ≤ c.toNat ∧ c.toNat ≤ 57)

/-- The test `'a' <= c && c <= 'f'`. -/
def isLowerHex (c : Char) : Bool := decide (97 ≤ c.toNat ∧ c.toNat ≤ 102)

/-- The test `'A' <= c && c <= 'F'`. -/
def isUpperHex (c : Char) : Bool := decide (65 ≤ c.toNat ∧ c.toNat ≤ 70)

/-- The characters the hexadecimal scan goes on with. -/
def isHexDigit (c : Char) : Bool := isDigit c || isLowerHex c || isUpperHex c

/-- The characters the name scan goes on with: letters and digits. -/
def isAlnum (c : Char) : Bool :=
  decide (97 ≤ c.toNat ∧ c.toNat ≤ 122) || decide (65 ≤ c.toNat ∧ c.toNat ≤ 90) || isDigit c

/-- One step of the numeric scan, in the arithmetic of `int32` (kept as the bit pattern):
`x = base*x + rune(c) - '0'`, and likewise for the letters. -/
def addDigit (base x : Nat) (c : Char) : Nat :=
  if isDigit c then (base * x + (c.toNat - 48)) % 2 ^ 32
  else if isLowerHex c then (base * x + (c.toNat - 97 + 10)) % 2 ^ 32
  else (base * x + (c.toNat - 65 + 10)) % 2 ^ 32

/-- The table `replacementTable`: the Windows-1252 readings of `0x80` to `0x9F`. -/
def replacementTable : List Nat :=
  [0x20AC, 0x0081, 0x201A, 0x0192, 0x201E, 0x2026, 0x2020, 0x2021,
   0x02C6, 0x2030, 0x0160, 0x2039, 0x0152, 0x008D, 0x017D, 0x008F,
   0x0090, 0x2018, 0x2019, 0x201C, 0x201D, 0x2022, 0x2013, 0x2014,
   0x02DC, 0x2122, 0x0161, 0x203A, 0x0153, 0x009D, 0x017E, 0x0178]

/-- The character written for the number `x` of a numeric reference: the replacement
table for `0x80` to `0x9F`, the replacement character for zero, the surrogates and what
lies beyond `0x10FFFF` (a negative `int32` among it), the character itself otherwise. -/
def entityRune (x : Nat) : Char :=
  if 0x80 ≤ x ∧ x ≤ 0x9F then Char.ofNat (replacementTable.getD (x - 0x80) 0xFFFD)
  else if x = 0 ∨ (0xD800 ≤ x ∧ x ≤ 0xDFFF) ∨ 0x10FFFF < x then Char.ofNat 0xFFFD
  else Char.ofNat x

/-- The numeric branch of `unescapeEntity` on `u = s[2:]`, entered when `len(s) > 3`:
the character and the index `i` behind the reference, `none` when `i <= 3`. -/
def numericEntity (u : GoString) : Option (Char × Nat) :=
  let hex := decide (u.head? = some 'x' ∨ u.head? = some 'X')
  let v := if hex then u.drop 1 else u
  let ds := v.takeWhile (if hex then isHexDigit else isDigit)
  let x := ds.foldl (addDigit (if hex then 16 else 10)) 0
  let i := (if hex then 3 else 2) + ds.length +
    (if (v.dropWhile (if hex then isHexDigit else isDigit)).head? = some ';' then 1 else 0)
  if i ≤ 3 then none else some (entityRune x, i)

/-- The tables `entity` and `entity2` of the library, names to characters. -/
structure Tables where
  entity : GoString → Option Char
  entity2 : GoString → Option (Char × Char)

/-- The table `entity`: the entries `amp;` and `lt;`, and for every other name the
entry of the given table. -/
def entity (tb : Tables) (name : GoString) : Option Char :=
  if name = "amp;".toList then some '&'
  else if name = "lt;".toList then some '<'
  else tb.entity name

/-- The loop `for j := maxLen; j > 1; j--` over the prefixes of a name without
semicolon: the character of the longest prefix in the table, and `j`. -/
def prefixEntity (tb : Tables) (entityName : GoString) : Nat → Option (Char × Nat)
  | 0 => none
  | j + 1 =>
    if 1 < j + 1 then
      match entity tb (entityName.take (j + 1)) with
      | some x => some (x, j + 1)
      | none => prefixEntity tb entityName j
    else none

/-- The named branch of `unescapeEntity` on `s`: what is written and the number of
characters of `s` that are consumed. -/
def namedEntity (tb : Tables) (s : GoString) : GoString × Nat :=
  let t := s.drop 1
  let name := t.takeWhile isAlnum
  let i := 1 + name.length + (if (t.dropWhile isAlnum).head? = some ';' then 1 else 0)
  let entityName := t.take (i - 1)
  if entityName = [] then (s.take i, i)
  else
    match entity tb entityName with
    | some x => ([x], i)
    | none =>
      match tb.entity2 entityName with
      | some (x, y) => ([x, y], i)
      | none =>
        match prefixEntity tb entityName (min (entityName.length - 1) 6) with
        | some (x, j) => ([x], j + 1)
        | none => (s.take i, i)

/-- The function `unescapeEntity(b, dst, src, false)` on `s = b[src:]`, which starts with
`&`: what is written at `dst` and the advance of `src`. -/
def unescapeEntity (tb : Tables) (s : GoString) : GoString × Nat :=
  if len s ≤ 1 then (s.take 1, 1)
  else if s[1]? = some '#' then
    if len s ≤ 3 then (s.take 1, 1)
    else
      match numericEntity (s.drop 2) with
      | none => (s.take 1, 1)
      | some (x, i) => ([x], i)
  else namedEntity tb s

/-- The loop of `unescape`: the first argument counts the characters that the last
reference still covers. -/
def unescapeFrom (tb : Tables) : Nat → GoString → GoString
  | _, [] => []
  | n + 1, _ :: rest => unescapeFrom tb n rest
  | 0, c :: rest =>
    if c = '&' then
      (unescapeEntity tb (c :: rest)).1 ++
        unescapeFrom tb ((unescapeEntity tb (c :: rest)).2 - 1) rest
    else c :: unescapeFrom tb 0 rest

/-- The function `html.UnescapeString`. -/
def UnescapeString (tb : Tables) (s : GoString) : GoString := unescapeFrom tb 0 s

/-! ## The environment -/

/-- The type `common.Address`: the bytes of an account identifier. -/
structure Address where
  bytes : List Nat
  deriving DecidableEq, Repr

/-- A file of the file system, by the name under which the system keeps it. -/
structure FileId where
  name : GoString
  deriving DecidableEq, Repr

/-- What lies outside the package.  `HexToAddress` and `AddressString` are the address
normalisation of `go-ethereum/common`; `NewDocument k url` is the answer of
`goquery.NewDocument` to the request for `url` made after `k` earlier requests; `tables`
are the entity tables of `x/net/html`; `WriteFile k filename data` is what the call of
`ioutil.WriteFile` made after `k` earlier such calls does: the file that `filename`
opened and what that file holds afterwards, `none` when no file was opened.  The write
has succeeded when the file holds `data`. -/
structure Env where
  HexToAddress : GoString → Address
  AddressString : Address → GoString
  NewDocument : Nat → GoString → Except Error Node
  tables : Tables
  WriteFile : Nat → GoString → GoString → Option (FileId × GoString)

/-- One observable action of the program. -/
inductive Event where
  | Trace (addr name : GoString)
  | Get (url : GoString)
  | Info (name addr : GoString) (err : Error)
  | WriteFile (filename data : GoString)
  deriving DecidableEq, Repr

/-- The world the program acts on: the number of requests and of file writes made, the
content of the files, and the actions performed so far, oldest first. -/
structure World where
  requests : Nat
  writes : Nat
  files : FileId → Option GoString
  events : List Event

/-- Records one action. -/
def World.log (w : World) (e : Event) : World :=
  { w with events := w.events ++ [e] }

/-- The HTTP GET issued by `goquery.NewDocument`. -/
def World.get (w : World) (url : GoString) : World :=
  { (w.log (Event.Get url)) with requests := w.requests + 1 }

/-- The call `ioutil.WriteFile(filename, data, perm)` with its result discarded, as in
the source: the call is made, and the file that the system opened for `filename`, if
any, holds afterwards what the system wrote to it. -/
def WriteFile (env : Env) (filename data : GoString) (w : World) : World :=
  let w1 := { (w.log (Event.WriteFile filename data)) with writes := w.writes + 1 }
  match env.WriteFile w.writes filename data with
  | none => w1
  | some (f, content) =>
    { w1 with files := fun g => if g = f then some content else w.files g }

/-! ## `GetSourceCode` -/

/-- The URL requested for an address:
`fmt.Sprintf("https://etherscan.io/address/%s", tokenAddr.String())`. -/
def pageURL (env : Env) (tokenAddr : Address) : GoString :=
  "https://etherscan.io/address/".toList ++ env.AddressString tokenAddr

/-- The call `GetSourceCode(tokenAddr)` made after `k` earlier requests.  The returned
pair is Go's `(string, error)`, `none` being the nil error; `sel.Get(0)` is the head of
the selection; the request itself is entered into the world by `World.get` at the call
site. -/
def GetSourceCode (env : Env) (k : Nat) (tokenAddr : Address) :
    Result (GoString × Option Error) :=
  match env.NewDocument k (pageURL env tokenAddr) with
  | .error err => .ret ([], some err)
  | .ok doc =>
    let sel := Find doc (idSelector "editor".toList)
    match sel with
    | [] => .ret ([], some (errorsNew "not found"))
    | node :: _ =>
      match node.FirstChild with
      | none => .panic .nilDereference
      | some child => .ret (UnescapeString env.tables child.Data, none)

/-! ## `GetAllSourceCode` -/

/-- The path of the output file of a record. -/
def outputPath (name : GoString) : GoString :=
  "./erc20/".toList ++ name ++ ".sol".toList

/-- One pass through the body of the `for` loop, for the line `s`: `none` when the
pass ends normally (also through `continue`), the panic otherwise. -/
def iteration (env : Env) (s : GoString) (w : World) : Option Panic × World :=
  if len s < 43 then (none, w)
  else
    let s2 := Split s ';'
    match s2[0]?, s2[1]? with
    | none, _ => (some (.indexOutOfRange 0 s2.length), w)
    | some _, none => (some (.indexOutOfRange 1 s2.length), w)
    | some addr, some name =>
      let w1 := w.log (Event.Trace addr name)
      let tokenAddr := env.HexToAddress addr
      let w2 := w1.get (pageURL env tokenAddr)
      match GetSourceCode env w1.requests tokenAddr with
      | .panic p => (some p, w2)
      | .ret (_, some err) => (none, w2.log (Event.Info name addr err))
      | .ret (code, none) =>
        let code := code ++ "\n//".toList ++ addr
        (none, WriteFile env (outputPath name) code w2)

/-- The `for _, s := range ss` loop. -/
def loop (env : Env) : List GoString → World → Option Panic × World
  | [], w => (none, w)
  | s :: ss, w =>
    match iteration env s w with
    | (none, w1) => loop env ss w1
    | (some p, w1) => (some p, w1)

/-- The call `GetAllSourceCode(info)`: the panic that ended the call, if any, and the
world it leaves. -/
def GetAllSourceCode (env : Env) (info : GoString) (w : World) : Option Panic × World :=
  loop env (Split info '\n') w

/-! ## Vocabulary of the statements -/

/-- The address token of a line, `s2[0]` (empty when absent). -/
def addrOf (s : GoString) : GoString := (Split s ';')[0]?.getD []

/-- The name token of a line, `s2[1]` (empty when absent). -/
def nameOf (s : GoString) : GoString := (Split s ';')[1]?.getD []

/-- The fetch made for a line when it is the request number `k` of the run. -/
def fetchOf (env : Env) (k : Nat) (s : GoString) : Result (GoString × Option Error) :=
  GetSourceCode env k (env.HexToAddress (addrOf s))

/-- The actions of one record that is fetched as request number `k`: the trace line,
the request, and then the file write or the failure message. -/
def recordEvents (env : Env) (k : Nat) (s : GoString) : List Event :=
  [Event.Trace (addrOf s) (nameOf s), Event.Get (pageURL env (env.HexToAddress (addrOf s)))] ++
    match fetchOf env k s with
    | .ret (code, none) =>
      [Event.WriteFile (outputPath (nameOf s)) (code ++ "\n//".toList ++ addrOf s)]
    | .ret (_, some err) => [Event.Info (nameOf s) (addrOf s) err]
    | .panic _ => []

/-- The URL of a request, for the other actions `none`. -/
def Event.url? : Event → Option GoString
  | .Get url => some url
  | _ => none

/-- The listing without its lines of fewer than 43 bytes. -/
def dropShort (info : GoString) : GoString :=
  Join ((Split info '\n').filter (fun s => decide (43 ≤ len s))) '\n'

/-- The listing without its lines of fewer than 43 characters. -/
def dropShortCharacters (info : GoString) : GoString :=
  Join ((Split info '\n').filter (fun s => decide (43 ≤ s.length))) '\n'

/-! ## A sample environment -/

/-- Value of a hexadecimal digit. -/
def hexVal (c : Char) : Option Nat :=
  if 48 ≤ c.toNat ∧ c.toNat ≤ 57 then some (c.toNat - 48)
  else if 97 ≤ c.toNat ∧ c.toNat ≤ 102 then some (c.toNat - 87)
  else if 65 ≤ c.toNat ∧ c.toNat ≤ 70 then some (c.toNat - 55)
  else none

/-- Bytes of a hexadecimal text, up to the first pair that is not hexadecimal. -/
def decodeHex : GoString → List Nat
  | a :: b :: rest =>
    match hexVal a, hexVal b with
    | some x, some y => (16 * x + y) :: decodeHex rest
    | _, _ => []
  | _ => []

/-- A normalisation in the manner of `common.HexToAddress`: the prefix `0x` is
dropped, an odd number of digits is padded, and the last twenty bytes are kept,
filled up with zero bytes on the left. -/
def sampleHexToAddress (s : GoString) : Address :=
  let s := if s.take 2 = "0x".toList ∨ s.take 2 = "0X".toList then s.drop 2 else s
  let s := if s.length % 2 = 1 then '0' :: s else s
  let b := decodeHex s
  let b := b.drop (b.length - 20)
  ⟨List.replicate (20 - b.length) 0 ++ b⟩

/-- The hexadecimal digit of a value below sixteen. -/
def hexChar (n : Nat) : Char := "0123456789abcdef".toList.getD n '0'

/-- Lower-case hexadecimal text of an address, with the prefix `0x`. -/
def sampleAddressString (a : Address) : GoString :=
  "0x".toList ++ a.bytes.flatMap (fun b => [hexChar (b / 16), hexChar (b % 16)])

/-- An excerpt of the table `entity`, for names other than `amp;` and `lt;`. -/
def sampleEntity (name : GoString) : Option Char :=
  if name = "amp".toList then some '&'
  else if name = "lt".toList then some '<'
  else if name = "gt;".toList ∨ name = "gt".toList then some '>'
  else if name = "quot;".toList ∨ name = "quot".toList then some '"'
  else if name = "apos;".toList then some (Char.ofNat 39)
  else if name = "nbsp;".toList ∨ name = "nbsp".toList then some (Char.ofNat 160)
  else if name = "copy;".toList ∨ name = "copy".toList then some (Char.ofNat 169)
  else if name = "reg;".toList ∨ name = "reg".toList then some (Char.ofNat 174)
  else none

/-- The sample entity tables. -/
def sampleTables : Tables := ⟨sampleEntity, fun _ => none⟩

/-- A file system whose working directory holds the directory `erc20` and nothing
else: a path opens a file when, its empty and `.` segments left out, it names a file
directly in `erc20`; the write then goes through in full. -/
def sampleWriteFile (_k : Nat) (filename data : GoString) : Option (FileId × GoString) :=
  match (Split filename '/').filter (fun seg => decide (seg ≠ [] ∧ seg ≠ ".".toList)) with
  | [dir, file] =>
    if dir = "erc20".toList ∧ file ≠ "..".toList then
      some (⟨"erc20/".toList ++ file⟩, data)
    else none
  | _ => none

/-- The environment in which the request number `k` is answered by the `k`-th entry
of `pages`, and by a transport error when there is none. -/
def sampleEnv (pages : List (Except Error Node)) : Env where
  HexToAddress := sampleHexToAddress
  AddressString := sampleAddressString
  NewDocument := fun k _ => pages[k]?.getD (.error ⟨"no such host"⟩)
  tables := sampleTables
  WriteFile := sampleWriteFile

/-- A world in which nothing has happened yet. -/
def emptyWorld : World := ⟨0, 0, fun _ => none, []⟩

/-- A text node. -/
def text (data : String) : Node := .mk .TextNode data.toList [] []

/-- An element node. -/
def element (tag : String) (attr : List Attribute) (children : List Node) : Node :=
  .mk .ElementNode tag.toList attr children

/-- A parsed page with the given content of its body. -/
def page (body : List Node) : Node :=
  .mk .DocumentNode [] [] [element "html" [] [element "head" [] [], element "body" [] body]]

/-- The element `<pre id="editor">`. -/
def editor (children : List Node) : Node :=
  element "pre" [⟨[], "id".toList, "editor".toList⟩] children

/-- A page that shows a source text. -/
def sourcePage (source : String) : Node :=
  page [element "div" [] [text "Contract Source Code", editor [text source]]]

/-- A page without the element `#editor`. -/
def plainPage : Node :=
  page [element "div" [⟨[], "id".toList, "header".toList⟩] [text "Address"]]

/-- A page whose element `#editor` has no child. -/
def emptyEditorPage : Node :=
  page [element "div" [] [editor []]]

/-- The first record of the comment above `GetAllSourceCode`. -/
def lineCAT : GoString := "0x56ba2ee7890461f463f7be02aac3099f6d5811a8;BlockCAT (CAT)".toList

/-- The second record of that comment. -/
def lineJ8T : GoString := "0x0d262e5dc4a06a0f1c90ce79c7a60c09dfc884e4;J8T (J8T)".toList

/-- A third record. -/
def lineOMG : GoString := "0xd26114cd6ee289accf82350c8d8487fedb8a0c07;OMGToken".toList

/-- Another record named like the first one. -/
def lineCAT2 : GoString := "0x0D262E5DC4A06A0F1C90CE79C7A60C09DFC884E4;BlockCAT (CAT)".toList

/-- A record whose name holds a slash. -/
def lineSlash : GoString := "0x56ba2ee7890461f463f7be02aac3099f6d5811a8;A/B Token".toList

/-- A record named `X`. -/
def lineX : GoString := "0x56ba2ee7890461f463f7be02aac3099f6d5811a8;X".toList

/-- A record named `./X`. -/
def lineDotX : GoString := "0x0d262e5dc4a06a0f1c90ce79c7a60c09dfc884e4;./X".toList

/-- A line of 57 bytes without a semicolon. -/
def lineComma : GoString := "0x56ba2ee7890461f463f7be02aac3099f6d5811a8,BlockCAT (CAT)".toList

/-- A record of 42 characters and 48 bytes. -/
def lineUSDT : GoString := "0xdac17f958d2ee523a2206206994597c13d83;泰达币".toList

/-! ## Facts about `Split` -/

/-- A text has at least as many bytes as characters. -/
theorem length_le_len (s : GoString) : s.length ≤ len s := by
  induction s with
  | nil => simp [len]
  | cons c cs ih =>
    have h : 1 ≤ runeLen c := by
      unfold runeLen
      split_ifs <;> omega
    simp only [List.length_cons, len]
    omega

theorem Index_eq_none {s : GoString} {sep : Char} : Index s sep = none ↔ sep ∉ s := by
  induction s with
  | nil => simp [Index]
  | cons c cs ih =>
    by_cases h : c = sep
    · simp [Index, h]
    · have h2 : ¬ sep = c := fun e => h e.symm
      simp [Index, h, h2, ih]

theorem Index_eq_some {s : GoString} {sep : Char} {m : Nat} (h : Index s sep = some m) :
    s = s.take m ++ sep :: s.drop (m + 1) ∧ sep ∉ s.take m := by
  induction s generalizing m with
  | nil => simp [Index] at h
  | cons c cs ih =>
    by_cases hc : c = sep
    · simp [Index, hc] at h
      subst h
      simp [hc]
    · have h2 : ¬ sep = c := fun e => hc e.symm
      simp only [Index, hc, if_false, Option.map_eq_some'] at h
      obtain ⟨k, hk, rfl⟩ := h
      obtain ⟨h1, h3⟩ := ih hk
      refine ⟨?_, ?_⟩
      · simp only [List.take_succ_cons, List.drop_succ_cons, List.cons_append]
        rw [← h1]
      · simp [List.take_succ_cons, h2, h3]

theorem Count_append (a b : GoString) (sep : Char) :
    Count (a ++ b) sep = Count a sep + Count b sep := by
  induction a with
  | nil => simp [Count]
  | cons c cs ih => simp [Count, ih, Nat.add_assoc]

theorem Count_eq_zero {s : GoString} {sep : Char} (h : sep ∉ s) : Count s sep = 0 := by
  induction s with
  | nil => rfl
  | cons c cs ih =>
    simp only [List.mem_cons, not_or] at h
    have h2 : ¬ c = sep := fun e => h.1 e.symm
    simp [Count, h2, ih h.2]

theorem not_mem_of_Count_eq_zero {s : GoString} {sep : Char} (h : Count s sep = 0) :
    sep ∉ s := by
  induction s with
  | nil => simp
  | cons c cs ih =>
    by_cases hc : c = sep
    · simp [Count, hc] at h
    · have h2 : ¬ sep = c := fun e => hc e.symm
      simp only [Count, hc, if_false, Nat.zero_add] at h
      simp [h2, ih h]

theorem splitOn_of_not_mem {s : GoString} {sep : Char} (h : sep ∉ s) :
    s.splitOn sep = [s] := by
  refine List.splitOnP_eq_single _ _ ?_
  intro y hy H
  rw [eq_of_beq H] at hy
  exact h hy

theorem splitOn_cut (a b : GoString) (sep : Char) (h : sep ∉ a) :
    (a ++ sep :: b).splitOn sep = a :: b.splitOn sep := by
  refine List.splitOnP_first _ _ ?_ sep (by simp) b
  intro y hy H
  rw [eq_of_beq H] at hy
  exact h hy

theorem genSplit_eq_splitOn (n : Nat) (s : GoString) (sep : Char) (h : Count s sep ≤ n) :
    genSplit n s sep = s.splitOn sep := by
  induction n generalizing s with
  | zero =>
    have h0 : sep ∉ s := not_mem_of_Count_eq_zero (Nat.le_zero.mp h)
    rw [splitOn_of_not_mem h0]; rfl
  | succ n ih =>
    cases hi : Index s sep with
    | none =>
      rw [splitOn_of_not_mem (Index_eq_none.mp hi)]
      simp [genSplit, hi]
    | some m =>
      obtain ⟨h1, h2⟩ := Index_eq_some hi
      have hc : Count (s.drop (m + 1)) sep ≤ n := by
        have e : Count s sep = Count (s.take m) sep + Count (sep :: s.drop (m + 1)) sep := by
          rw [← Count_append, ← h1]
        rw [Count_eq_zero h2] at e
        simp only [Count, if_true] at e
        omega
      simp only [genSplit, hi]
      rw [ih _ hc]
      conv_rhs => rw [h1]
      rw [splitOn_cut _ _ _ h2]

theorem Split_eq_splitOn (s : GoString) (sep : Char) : Split s sep = s.splitOn sep :=
  genSplit_eq_splitOn _ _ _ (Nat.le_refl _)

theorem Split_of_not_mem {s : GoString} {sep : Char} (h : sep ∉ s) : Split s sep = [s] := by
  rw [Split_eq_splitOn, splitOn_of_not_mem h]

theorem Split_cut (a b : GoString) (sep : Char) (h : sep ∉ a) :
    Split (a ++ sep :: b) sep = a :: Split b sep := by
  rw [Split_eq_splitOn, Split_eq_splitOn, splitOn_cut _ _ _ h]

/-- The text before the first separator, and the text behind it. -/
theorem cut_at_first {s : GoString} {sep : Char} (h : sep ∈ s) :
    s = s.takeWhile (fun c => c != sep) ++ sep :: (s.dropWhile (fun c => c != sep)).tail ∧
      sep ∉ s.takeWhile (fun c => c != sep) := by
  induction s with
  | nil => simp at h
  | cons c cs ih =>
    by_cases hc : c = sep
    · subst hc
      simp [List.takeWhile, List.dropWhile]
    · have h2 : ¬ sep = c := fun e => hc e.symm
      have hm : sep ∈ cs := by
        rcases List.mem_cons.mp h with e | e
        · exact absurd e h2
        · exact e
      obtain ⟨h1, h3⟩ := ih hm
      have hb : (c != sep) = true := by simp [hc]
      refine ⟨?_, ?_⟩
      · simp only [List.takeWhile, List.dropWhile, hb, List.cons_append]
        rw [← h1]
      · simp only [List.takeWhile, hb, List.mem_cons, not_or]
        exact ⟨h2, h3⟩

theorem takeWhile_of_not_mem {s : GoString} {sep : Char} (h : sep ∉ s) :
    s.takeWhile (fun c => c != sep) = s := by
  induction s with
  | nil => rfl
  | cons c cs ih =>
    simp only [List.mem_cons, not_or] at h
    have hb : (c != sep) = true := by
      have : ¬ c = sep := fun e => h.1 e.symm
      simp [this]
    simp [List.takeWhile, hb, ih h.2]

theorem Split_head (s : GoString) (sep : Char) :
    (Split s sep)[0]? = some (s.takeWhile (fun c => c != sep)) := by
  by_cases h : sep ∈ s
  · obtain ⟨h1, h2⟩ := cut_at_first h
    conv_lhs => rw [h1]
    rw [Split_cut _ _ _ h2, List.getElem?_cons_zero]
  · rw [Split_of_not_mem h, takeWhile_of_not_mem h, List.getElem?_cons_zero]

theorem Split_second {s : GoString} {sep : Char} (h : sep ∈ s) :
    (Split s sep)[1]? =
      some ((s.dropWhile (fun c => c != sep)).tail.takeWhile (fun c => c != sep)) := by
  obtain ⟨h1, h2⟩ := cut_at_first h
  conv_lhs => rw [h1]
  rw [Split_cut _ _ _ h2, List.getElem?_cons_succ]
  exact Split_head _ _

theorem not_mem_of_mem_Split (sep : Char) :
    ∀ (n : Nat) (s : GoString), s.length ≤ n → ∀ l ∈ Split s sep, sep ∉ l := by
  intro n
  induction n with
  | zero =>
    intro s hs l hl
    have : s = [] := List.length_eq_zero.mp (Nat.le_zero.mp hs)
    subst this
    have e : Split ([] : GoString) sep = [[]] := rfl
    rw [e] at hl
    simp at hl
    subst hl
    simp
  | succ n ih =>
    intro s hs l hl
    by_cases h : sep ∈ s
    · obtain ⟨h1, h2⟩ := cut_at_first h
      have hlen : ((s.dropWhile (fun c => c != sep)).tail).length ≤ n := by
        have := congrArg List.length h1
        simp only [List.length_append, List.length_cons] at this
        omega
      rw [h1, Split_cut _ _ _ h2] at hl
      rcases List.mem_cons.mp hl with e | e
      · rw [e]; exact h2
      · exact ih _ hlen l e
    · rw [Split_of_not_mem h] at hl
      simp at hl
      subst hl
      exact h

theorem Split_Join (ls : List GoString) (sep : Char) (hx : ∀ l ∈ ls, sep ∉ l) (hls : ls ≠ []) :
    Split (Join ls sep) sep = ls := by
  rw [Split_eq_splitOn]
  exact List.splitOn_intercalate ls sep hx hls

/-! ## Facts about the entity decoder -/

theorem one_le_runeLen (c : Char) : 1 ≤ runeLen c := by
  unfold runeLen
  split_ifs <;> omega

/-- A scan that does not go on with `&` stops at a `&` as it stops at the end. -/
theorem takeWhile_append_amp (p : Char → Bool) (hp : p '&' = false) (t z : GoString) :
    (t ++ '&' :: z).takeWhile p = t.takeWhile p := by
  induction t with
  | nil => simp [List.takeWhile, hp]
  | cons c cs ih =>
    by_cases h : p c = true
    · simp [List.takeWhile, h, ih]
    · simp [List.takeWhile, h]

theorem dropWhile_append_amp (p : Char → Bool) (hp : p '&' = false) (t z : GoString) :
    ((t ++ '&' :: z).dropWhile p).head? = some ';' ↔ (t.dropWhile p).head? = some ';' := by
  induction t with
  | nil => simp [List.dropWhile, hp]
  | cons c cs ih =>
    by_cases h : p c = true
    · simp [List.dropWhile, h, ih]
    · simp [List.dropWhile, h]

theorem scan_length_le (p : Char → Bool) (t : GoString) :
    (t.takeWhile p).length + (if (t.dropWhile p).head? = some ';' then 1 else 0) ≤ t.length := by
  induction t with
  | nil => simp
  | cons c cs ih =>
    by_cases h : p c = true
    · simp only [List.takeWhile, List.dropWhile, h, List.length_cons]
      omega
    · simp only [List.takeWhile, List.dropWhile, h, List.length_cons, List.length_nil]
      split_ifs <;> omega

theorem prefixEntity_le (tb : Tables) (entityName : GoString) (n : Nat) (x : Char) (j : Nat)
    (h : prefixEntity tb entityName n = some (x, j)) : j ≤ n := by
  induction n with
  | zero => simp [prefixEntity] at h
  | succ n ih =>
    unfold prefixEntity at h
    split_ifs at h with h1
    · rcases he : entity tb (entityName.take (n + 1)) with _ | y
      · rw [he] at h
        have := ih h
        omega
      · rw [he] at h
        simp at h
        omega

theorem isAlnum_amp : isAlnum '&' = false := by decide

theorem isDigit_amp : isDigit '&' = false := by decide

theorem isHexDigit_amp : isHexDigit '&' = false := by decide

/-- The named branch reads a text that is followed by `&` as it reads the text alone,
and consumes none of what follows. -/
theorem namedEntity_append_amp (tb : Tables) (c : Char) (t z : GoString) :
    namedEntity tb (c :: t ++ '&' :: z) = namedEntity tb (c :: t) ∧
      (namedEntity tb (c :: t)).2 ≤ (c :: t).length := by
  have hb := scan_length_le isAlnum t
  have htake : ∀ n, n ≤ t.length → (t ++ '&' :: z).take n = t.take n := by
    intro n hn
    rw [List.take_append_of_le_length hn]
  have htake1 : ∀ n, n ≤ t.length + 1 →
      (c :: (t ++ '&' :: z)).take n = (c :: t).take n := by
    intro n hn
    cases n with
    | zero => rfl
    | succ m => simp only [List.take_succ_cons]; rw [htake m (by omega)]
  have hsemi : (((t ++ '&' :: z).dropWhile isAlnum).head? = some ';') =
      ((t.dropWhile isAlnum).head? = some ';') :=
    propext (dropWhile_append_amp isAlnum isAlnum_amp t z)
  constructor
  · simp only [namedEntity, List.cons_append, List.drop_succ_cons, List.drop_zero,
      takeWhile_append_amp isAlnum isAlnum_amp, hsemi]
    rw [htake _ (by omega), htake1 _ (by omega)]
  · simp only [namedEntity, List.drop_succ_cons, List.drop_zero]
    generalize (if (t.dropWhile isAlnum).head? = some ';' then 1 else 0) = k at hb ⊢
    generalize (t.takeWhile isAlnum).length = n at hb ⊢
    by_cases he : t.take (1 + n + k - 1) = []
    · simp only [he, if_true, List.length_cons]
      omega
    · simp only [he, if_false]
      cases h1 : entity tb (t.take (1 + n + k - 1)) with
      | some x => simp only [List.length_cons]; omega
      | none =>
        cases h2 : tb.entity2 (t.take (1 + n + k - 1)) with
        | some xy => simp only [List.length_cons]; omega
        | none =>
          cases h3 : prefixEntity tb (t.take (1 + n + k - 1))
              (min ((t.take (1 + n + k - 1)).length - 1) 6) with
          | some xj =>
            obtain ⟨x, j⟩ := xj
            have h4 := prefixEntity_le tb _ _ _ _ h3
            have h5 : t.take (1 + n + k - 1) ≠ [] := he
            have h6 : 0 < (t.take (1 + n + k - 1)).length := List.length_pos.mpr h5
            simp only [List.length_take] at h4 h6
            simp only [List.length_cons]
            omega
          | none => simp only [List.length_cons]; omega

/-- The numeric branch reads a text that is followed by `&` as it reads the text
alone. -/
theorem numericEntity_append_amp (u z : GoString) :
    numericEntity (u ++ '&' :: z) = numericEntity u := by
  cases u with
  | nil =>
    have hd : (('&' :: z).dropWhile isDigit).head? ≠ some ';' := by
      simp [List.dropWhile, isDigit_amp]
    simp [numericEntity, List.takeWhile, isDigit_amp, hd]
  | cons h u1 =>
    by_cases hx : h = 'x' ∨ h = 'X'
    · have e1 : (((u1 ++ '&' :: z).dropWhile isHexDigit).head? = some ';') =
          ((u1.dropWhile isHexDigit).head? = some ';') :=
        propext (dropWhile_append_amp isHexDigit isHexDigit_amp u1 z)
      simp only [numericEntity, List.cons_append, List.head?_cons, Option.some.injEq, hx,
        decide_True, if_true, List.drop_succ_cons, List.drop_zero,
        takeWhile_append_amp isHexDigit isHexDigit_amp, e1]
    · have e1 : ((((h :: u1) ++ '&' :: z).dropWhile isDigit).head? = some ';') =
          (((h :: u1).dropWhile isDigit).head? = some ';') :=
        propext (dropWhile_append_amp isDigit isDigit_amp (h :: u1) z)
      have e2 := takeWhile_append_amp isDigit isDigit_amp (h :: u1) z
      simp only [List.cons_append] at e1 e2
      simp only [numericEntity, List.cons_append, List.head?_cons, Option.some.injEq, hx,
        decide_False, Bool.false_eq_true, if_false, e1, e2]

/-- The index behind a numeric reference is above three and lies within the text. -/
theorem numericEntity_le (u : GoString) (x : Char) (i : Nat)
    (h : numericEntity u = some (x, i)) : 3 < i ∧ i ≤ u.length + 2 := by
  cases u with
  | nil => simp [numericEntity] at h
  | cons c u1 =>
    by_cases hx : c = 'x' ∨ c = 'X'
    · have hb := scan_length_le isHexDigit u1
      simp only [numericEntity, List.head?_cons, Option.some.injEq, hx, decide_True, if_true,
        List.drop_succ_cons, List.drop_zero] at h
      generalize (if (u1.dropWhile isHexDigit).head? = some ';' then 1 else 0) = k at hb h
      split_ifs at h with h1
      simp only [Option.some.injEq, Prod.mk.injEq] at h
      simp only [List.length_cons]
      omega
    · have hb := scan_length_le isDigit (c :: u1)
      simp only [numericEntity, List.head?_cons, Option.some.injEq, hx, decide_False,
        Bool.false_eq_true, if_false] at h
      generalize (if ((c :: u1).dropWhile isDigit).head? = some ';' then 1 else 0) = k at hb h
      split_ifs at h with h1
      simp only [Option.some.injEq, Prod.mk.injEq] at h
      simp only [List.length_cons] at hb ⊢
      omega

/-- A text of at most one character behind `&#` holds no numeric reference. -/
theorem numericEntity_short (u : GoString) (hu : u.length ≤ 1) : numericEntity u = none := by
  cases hn : numericEntity u with
  | none => rfl
  | some xi =>
    obtain ⟨x, i⟩ := xi
    have h1 := numericEntity_le u x i hn
    omega

theorem len_append (a b : GoString) : len (a ++ b) = len a + len b := by
  induction a with
  | nil => simp [len]
  | cons c cs ih =>
    rw [List.cons_append]
    simp only [len, ih]
    omega

theorem runeLen_amp : runeLen '&' = 1 := by decide

theorem runeLen_hash : runeLen '#' = 1 := by decide

/-- The function `unescapeEntity` reads a text that is followed by `&` as it reads the
text alone, and its advance stays within the text. -/
theorem unescapeEntity_append_amp (tb : Tables) (t z : GoString) :
    unescapeEntity tb ('&' :: t ++ '&' :: z) = unescapeEntity tb ('&' :: t) ∧
      (unescapeEntity tb ('&' :: t)).2 ≤ ('&' :: t).length := by
  cases t with
  | nil =>
    have h1 : ¬ len ('&' :: '&' :: z) ≤ 1 := by
      simp only [len, runeLen_amp]; omega
    have h2 : len ['&'] ≤ 1 := by simp [len, runeLen_amp]
    have h3 := (namedEntity_append_amp tb '&' [] z).1
    have h4 : namedEntity tb ['&'] = (['&'], 1) := by simp [namedEntity]
    constructor
    · simp only [unescapeEntity, List.cons_append, List.nil_append, h1, h2, if_true, if_false]
      simp only [List.cons_append, List.nil_append] at h3
      rw [h3, h4]
      simp
    · simp [unescapeEntity, h2]
  | cons d t1 =>
    have hd := one_le_runeLen d
    have h1 : ¬ len ('&' :: d :: t1) ≤ 1 := by
      simp only [len, runeLen_amp]; omega
    have h2 : ¬ len ('&' :: d :: (t1 ++ '&' :: z)) ≤ 1 := by
      simp only [len, runeLen_amp]; omega
    by_cases hh : d = '#'
    · subst hh
      have hl : len ('&' :: '#' :: (t1 ++ '&' :: z)) = len ('&' :: '#' :: t1) + (1 + len z) := by
        simp only [len, len_append, runeLen_amp, runeLen_hash]; omega
      have hn := numericEntity_append_amp t1 z
      by_cases h3 : len ('&' :: '#' :: t1) ≤ 3
      · have h4 : t1.length ≤ 1 := by
          have := length_le_len t1
          simp only [len, runeLen_amp, runeLen_hash] at h3
          omega
        have h5 := numericEntity_short t1 h4
        constructor
        · simp only [unescapeEntity, List.cons_append, h1, h2, h3, if_true, if_false,
            List.getElem?_cons_succ, List.getElem?_cons_zero, List.drop_succ_cons,
            List.drop_zero, hn, h5]
          split_ifs <;> simp
        · simp [unescapeEntity, h1, h3]
      · have h4 : ¬ len ('&' :: '#' :: (t1 ++ '&' :: z)) ≤ 3 := by omega
        constructor
        · simp only [unescapeEntity, List.cons_append, h1, h2, h3, h4, if_false, if_true,
            List.getElem?_cons_succ, List.getElem?_cons_zero, List.drop_succ_cons,
            List.drop_zero, hn]
          cases numericEntity t1 <;> simp
        · simp only [unescapeEntity, h1, h3, if_false, if_true,
            List.getElem?_cons_succ, List.getElem?_cons_zero, List.drop_succ_cons,
            List.drop_zero]
          cases hq : numericEntity t1 with
          | none => simp
          | some xi =>
            obtain ⟨x, i⟩ := xi
            have := numericEntity_le t1 x i hq
            simp only [List.length_cons]
            omega
    · have hne : ¬ (some d = some '#') := by
        intro e
        exact hh (Option.some.inj e)
      have h3 := namedEntity_append_amp tb '&' (d :: t1) z
      simp only [List.cons_append] at h3
      constructor
      · simp only [unescapeEntity, List.cons_append, h1, h2, if_false,
          List.getElem?_cons_succ, List.getElem?_cons_zero, hne]
        exact h3.1
      · simp only [unescapeEntity, h1, if_false,
          List.getElem?_cons_succ, List.getElem?_cons_zero, hne]
        exact h3.2

theorem unescapeFrom_succ (tb : Tables) (n : Nat) (c : Char) (rest : GoString) :
    unescapeFrom tb (n + 1) (c :: rest) = unescapeFrom tb n rest := rfl

theorem unescapeFrom_amp (tb : Tables) (rest : GoString) :
    unescapeFrom tb 0 ('&' :: rest) =
      (unescapeEntity tb ('&' :: rest)).1 ++
        unescapeFrom tb ((unescapeEntity tb ('&' :: rest)).2 - 1) rest := by
  simp [unescapeFrom]

theorem unescapeFrom_plain (tb : Tables) (c : Char) (rest : GoString) (hc : c ≠ '&') :
    unescapeFrom tb 0 (c :: rest) = c :: unescapeFrom tb 0 rest := by
  simp [unescapeFrom, hc]

/-- What stands before a `&` is decoded as if it stood alone. -/
theorem unescapeFrom_append_amp (tb : Tables) (x z : GoString) (n : Nat) (hn : n ≤ x.length) :
    unescapeFrom tb n (x ++ '&' :: z) = unescapeFrom tb n x ++ unescapeFrom tb 0 ('&' :: z) := by
  induction x generalizing n with
  | nil =>
    have h0 : n = 0 := by simpa using hn
    subst h0
    have e : unescapeFrom tb 0 [] = [] := rfl
    rw [List.nil_append, e, List.nil_append]
  | cons c cs ih =>
    rw [List.cons_append]
    cases n with
    | succ m =>
      rw [unescapeFrom_succ, unescapeFrom_succ]
      exact ih m (by simpa using hn)
    | zero =>
      by_cases hc : c = '&'
      · subst hc
        obtain ⟨e1, e2⟩ := unescapeEntity_append_amp tb cs z
        rw [List.cons_append] at e1
        have e3 : (unescapeEntity tb ('&' :: cs)).2 - 1 ≤ cs.length := by
          simp only [List.length_cons] at e2
          omega
        rw [unescapeFrom_amp tb (cs ++ '&' :: z), unescapeFrom_amp tb cs, e1, ih _ e3,
          List.append_assoc]
      · rw [unescapeFrom_plain tb c _ hc, unescapeFrom_plain tb c _ hc, ih 0 (Nat.zero_le _),
          List.cons_append]

theorem unescapeEntity_amp (tb : Tables) (y : GoString) :
    unescapeEntity tb ('&' :: 'a' :: 'm' :: 'p' :: ';' :: y) = (['&'], 5) := by
  have h1 : ¬ len ('&' :: 'a' :: 'm' :: 'p' :: ';' :: y) ≤ 1 := by
    have : runeLen 'a' = 1 := by decide
    simp only [len, runeLen_amp, this]; omega
  have h2 : ¬ (some 'a' = some '#') := by decide
  have ha : isAlnum 'a' = true := by decide
  have hm : isAlnum 'm' = true := by decide
  have hp : isAlnum 'p' = true := by decide
  have hs : isAlnum ';' = false := by decide
  simp only [unescapeEntity, h1, if_false, List.getElem?_cons_succ, List.getElem?_cons_zero, h2]
  simp [namedEntity, List.takeWhile, List.dropWhile, ha, hm, hp, hs, entity]

theorem unescapeEntity_lt (tb : Tables) (y : GoString) :
    unescapeEntity tb ('&' :: 'l' :: 't' :: ';' :: y) = (['<'], 4) := by
  have h1 : ¬ len ('&' :: 'l' :: 't' :: ';' :: y) ≤ 1 := by
    have : runeLen 'l' = 1 := by decide
    simp only [len, runeLen_amp, this]; omega
  have h2 : ¬ (some 'l' = some '#') := by decide
  have hl : isAlnum 'l' = true := by decide
  have ht : isAlnum 't' = true := by decide
  have hs : isAlnum ';' = false := by decide
  simp only [unescapeEntity, h1, if_false, List.getElem?_cons_succ, List.getElem?_cons_zero, h2]
  simp [namedEntity, List.takeWhile, List.dropWhile, hl, ht, hs, entity]

/-- Every `&amp;` of a text is decoded to `&`, whatever stands around it. -/
theorem UnescapeString_amp (tb : Tables) (x y : GoString) :
    UnescapeString tb (x ++ "&amp;".toList ++ y) =
      UnescapeString tb x ++ '&' :: UnescapeString tb y := by
  have e : x ++ "&amp;".toList ++ y = x ++ '&' :: ('a' :: 'm' :: 'p' :: ';' :: y) := by
    simp
  unfold UnescapeString
  rw [e, unescapeFrom_append_amp tb x _ 0 (Nat.zero_le _), unescapeFrom_amp,
    unescapeEntity_amp]
  rfl

/-- Every `&lt;` of a text is decoded to `<`, whatever stands around it. -/
theorem UnescapeString_lt (tb : Tables) (x y : GoString) :
    UnescapeString tb (x ++ "&lt;".toList ++ y) =
      UnescapeString tb x ++ '<' :: UnescapeString tb y := by
  have e : x ++ "&lt;".toList ++ y = x ++ '&' :: ('l' :: 't' :: ';' :: y) := by
    simp
  unfold UnescapeString
  rw [e, unescapeFrom_append_amp tb x _ 0 (Nat.zero_le _), unescapeFrom_amp,
    unescapeEntity_lt]
  rfl

/-! ## Facts about the loop -/

theorem WriteFile_events (env : Env) (filename data : GoString) (w : World) :
    (WriteFile env filename data w).events = w.events ++ [Event.WriteFile filename data] := by
  unfold WriteFile
  cases env.WriteFile w.writes filename data <;> rfl

theorem WriteFile_requests (env : Env) (filename data : GoString) (w : World) :
    (WriteFile env filename data w).requests = w.requests := by
  unfold WriteFile
  cases env.WriteFile w.writes filename data <;> rfl

/-- A write changes at most the file that the system opened for it. -/
theorem WriteFile_files_other (env : Env) (filename data : GoString) (w : World) (g : FileId)
    (h : ∀ c, env.WriteFile w.writes filename data ≠ some (g, c)) :
    (WriteFile env filename data w).files g = w.files g := by
  unfold WriteFile
  cases hw : env.WriteFile w.writes filename data with
  | none => rfl
  | some fc =>
    obtain ⟨f, c⟩ := fc
    have hne : g ≠ f := by
      intro e
      subst e
      exact h c hw
    simp [World.log, hne]

/-- A write that the system carried out leaves its file with what was written. -/
theorem WriteFile_files_self (env : Env) (filename data content : GoString) (w : World)
    (f : FileId) (h : env.WriteFile w.writes filename data = some (f, content)) :
    (WriteFile env filename data w).files f = some content := by
  unfold WriteFile
  rw [h]
  simp

theorem iteration_short (env : Env) {s : GoString} (w : World) (h : len s < 43) :
    iteration env s w = (none, w) := by
  simp [iteration, h]

theorem iteration_no_second (env : Env) {s : GoString} (w : World) (h : 43 ≤ len s)
    (h1 : ';' ∉ s) : iteration env s w = (some (.indexOutOfRange 1 1), w) := by
  have hl : ¬ len s < 43 := by omega
  simp [iteration, hl, Split_of_not_mem h1]

theorem iteration_record (env : Env) {s addr name : GoString} (w : World) (h : 43 ≤ len s)
    (h0 : (Split s ';')[0]? = some addr) (h1 : (Split s ';')[1]? = some name) :
    iteration env s w =
      match GetSourceCode env w.requests (env.HexToAddress addr) with
      | .panic p =>
        (some p, (w.log (Event.Trace addr name)).get (pageURL env (env.HexToAddress addr)))
      | .ret (_, some err) =>
        (none, ((w.log (Event.Trace addr name)).get
          (pageURL env (env.HexToAddress addr))).log (Event.Info name addr err))
      | .ret (code, none) =>
        (none, WriteFile env (outputPath name) (code ++ "\n//".toList ++ addr)
          ((w.log (Event.Trace addr name)).get (pageURL env (env.HexToAddress addr)))) := by
  have hl : ¬ len s < 43 := by omega
  simp only [iteration, hl, if_false, h0, h1]
  rfl

theorem loop_append (env : Env) (a b : List GoString) (w : World) :
    loop env (a ++ b) w =
      match loop env a w with
      | (none, w1) => loop env b w1
      | (some p, w1) => (some p, w1) := by
  induction a generalizing w with
  | nil => rfl
  | cons s ss ih =>
    rw [List.cons_append]
    simp only [loop]
    rcases hi : iteration env s w with ⟨_ | p, w1⟩
    · exact ih w1
    · rfl

theorem loop_filter (env : Env) (ls : List GoString) (w : World) :
    loop env (ls.filter (fun s => decide (43 ≤ len s))) w = loop env ls w := by
  induction ls generalizing w with
  | nil => rfl
  | cons s ss ih =>
    by_cases h : 43 ≤ len s
    · simp only [List.filter, h, decide_True, loop]
      rcases hi : iteration env s w with ⟨_ | p, w1⟩
      · simp only [ih]
      · rfl
    · have hs : len s < 43 := by omega
      simp only [List.filter, h, decide_False, loop, iteration_short env w hs, ih]

theorem tokens_of_wellformed {s : GoString} (h : ';' ∈ s) :
    (Split s ';')[0]? = some (addrOf s) ∧ (Split s ';')[1]? = some (nameOf s) := by
  simp [addrOf, nameOf, Split_head, Split_second h]

/-- A record whose fetch does not panic: the pass ends normally, one request has been
made, and the actions of the record have been appended. -/
theorem iteration_wellformed (env : Env) {s : GoString} (w : World) (h : 43 ≤ len s)
    (hs : ';' ∈ s) (hp : (fetchOf env w.requests s).isPanic = false) :
    (iteration env s w).1 = none ∧
      (iteration env s w).2.requests = w.requests + 1 ∧
      (iteration env s w).2.events = w.events ++ recordEvents env w.requests s := by
  obtain ⟨h0, h1⟩ := tokens_of_wellformed hs
  rw [iteration_record env w h h0 h1]
  unfold recordEvents
  unfold fetchOf at hp ⊢
  rcases hf : GetSourceCode env w.requests (env.HexToAddress (addrOf s)) with ⟨code, _ | err⟩ | p
  · simp [WriteFile_events, WriteFile_requests, World.log, World.get]
  · simp [World.log, World.get]
  · rw [hf] at hp
    simp [Result.isPanic] at hp

theorem loop_records (env : Env) (ls : List GoString) (w : World)
    (hwf : ∀ l ∈ ls, 43 ≤ len l ∧ ';' ∈ l)
    (hnp : ∀ p ∈ List.enumFrom w.requests ls, (fetchOf env p.1 p.2).isPanic = false) :
    (loop env ls w).1 = none ∧
      (loop env ls w).2.requests = w.requests + ls.length ∧
      (loop env ls w).2.events =
        w.events ++ (List.enumFrom w.requests ls).flatMap (fun p => recordEvents env p.1 p.2) := by
  induction ls generalizing w with
  | nil => simp [loop]
  | cons s ss ih =>
    have hs := hwf s (List.mem_cons_self _ _)
    have hp : (fetchOf env w.requests s).isPanic = false :=
      hnp (w.requests, s) (by simp [List.enumFrom])
    obtain ⟨i1, i2, i3⟩ := iteration_wellformed env w hs.1 hs.2 hp
    simp only [loop]
    rcases hi : iteration env s w with ⟨_ | p, w1⟩
    · rw [hi] at i2 i3
      simp only at i2 i3
      have hwf1 : ∀ l ∈ ss, 43 ≤ len l ∧ ';' ∈ l :=
        fun l hl => hwf l (List.mem_cons_of_mem _ hl)
      have hnp1 : ∀ p ∈ List.enumFrom w1.requests ss, (fetchOf env p.1 p.2).isPanic = false := by
        intro p hp1
        rw [i2] at hp1
        exact hnp p (by simp only [List.enumFrom, List.mem_cons]; exact Or.inr hp1)
      obtain ⟨j1, j2, j3⟩ := ih w1 hwf1 hnp1
      refine ⟨j1, ?_, ?_⟩
      · rw [j2, i2, List.length_cons]; omega
      · rw [j3, i3, i2]
        simp [List.enumFrom, List.flatMap_cons]
    · rw [hi] at i1
      simp at i1

/-- The actions already performed are never removed or changed. -/
theorem iteration_events_extend (env : Env) (s : GoString) (w : World) :
    ∃ rest, (iteration env s w).2.events = w.events ++ rest := by
  by_cases h : 43 ≤ len s
  · by_cases hs : ';' ∈ s
    · obtain ⟨h0, h1⟩ := tokens_of_wellformed hs
      rw [iteration_record env w h h0 h1]
      rcases hf : GetSourceCode env w.requests (env.HexToAddress (addrOf s))
        with ⟨code, _ | err⟩ | p
      · exact ⟨[Event.Trace (addrOf s) (nameOf s),
          Event.Get (pageURL env (env.HexToAddress (addrOf s))),
          Event.WriteFile (outputPath (nameOf s)) (code ++ "\n//".toList ++ addrOf s)],
          by simp [WriteFile_events, World.log, World.get]⟩
      · exact ⟨[Event.Trace (addrOf s) (nameOf s),
          Event.Get (pageURL env (env.HexToAddress (addrOf s))),
          Event.Info (nameOf s) (addrOf s) err], by simp [World.log, World.get]⟩
      · exact ⟨[Event.Trace (addrOf s) (nameOf s),
          Event.Get (pageURL env (env.HexToAddress (addrOf s)))],
          by simp [World.log, World.get]⟩
    · rw [iteration_no_second env w h hs]
      exact ⟨[], by simp⟩
  · rw [iteration_short env w (by omega)]
    exact ⟨[], by simp⟩

theorem loop_events_extend (env : Env) (ls : List GoString) (w : World) :
    ∃ rest, (loop env ls w).2.events = w.events ++ rest := by
  induction ls generalizing w with
  | nil => exact ⟨[], by simp [loop]⟩
  | cons s ss ih =>
    obtain ⟨r1, h1⟩ := iteration_events_extend env s w
    simp only [loop]
    rcases hi : iteration env s w with ⟨_ | p, w1⟩
    · rw [hi] at h1
      obtain ⟨r2, h2⟩ := ih w1
      exact ⟨r1 ++ r2, by rw [h2, h1, List.append_assoc]⟩
    · rw [hi] at h1
      exact ⟨r1, h1⟩

/-- A pass over a line whose output path does not open the file `f` leaves `f` as it
was. -/
theorem iteration_files_other (env : Env) (s : GoString) (f : FileId) (w : World)
    (h : 43 ≤ len s → ∀ k d c, env.WriteFile k (outputPath (nameOf s)) d ≠ some (f, c)) :
    (iteration env s w).2.files f = w.files f := by
  by_cases hl : 43 ≤ len s
  · by_cases hs : ';' ∈ s
    · obtain ⟨h0, h1⟩ := tokens_of_wellformed hs
      rw [iteration_record env w hl h0 h1]
      rcases hf : GetSourceCode env w.requests (env.HexToAddress (addrOf s))
        with ⟨code, _ | err⟩ | p
      · simp only
        rw [WriteFile_files_other env _ _ _ f (fun c => h hl _ _ c)]
        rfl
      · rfl
      · rfl
    · rw [iteration_no_second env w hl hs]
  · rw [iteration_short env w (by omega)]

theorem loop_files_other (env : Env) (ls : List GoString) (f : FileId) (w : World)
    (h : ∀ l ∈ ls, 43 ≤ len l →
      ∀ k d c, env.WriteFile k (outputPath (nameOf l)) d ≠ some (f, c)) :
    (loop env ls w).2.files f = w.files f := by
  induction ls generalizing w with
  | nil => rfl
  | cons s ss ih =>
    have h1 := iteration_files_other env s f w (h s (List.mem_cons_self _ _))
    simp only [loop]
    rcases hi : iteration env s w with ⟨_ | p, w1⟩
    · rw [hi] at h1
      simp only at h1 ⊢
      rw [ih w1 (fun l hl => h l (List.mem_cons_of_mem _ hl)), h1]
    · rw [hi] at h1
      exact h1

theorem run_split (env : Env) (pre post : List GoString) (s : GoString) (w : World)
    (hpre : (loop env pre w).1 = none) :
    loop env (pre ++ s :: post) w =
      match iteration env s (loop env pre w).2 with
      | (none, w2) => loop env post w2
      | (some p, w2) => (some p, w2) := by
  rw [loop_append]
  rcases h : loop env pre w with ⟨_ | p, w1⟩
  · rfl
  · rw [h] at hpre
    simp at hpre

theorem iteration_success (env : Env) {s addr name T : GoString} (w : World) (h : 43 ≤ len s)
    (h0 : (Split s ';')[0]? = some addr) (h1 : (Split s ';')[1]? = some name)
    (hfetch : GetSourceCode env w.requests (env.HexToAddress addr) = .ret (T, none)) :
    iteration env s w =
      (none, WriteFile env (outputPath name) (T ++ "\n//".toList ++ addr)
        ((w.log (Event.Trace addr name)).get (pageURL env (env.HexToAddress addr)))) := by
  rw [iteration_record env w h h0 h1, hfetch]

theorem iteration_failure (env : Env) {s addr name code : GoString} {err : Error} (w : World)
    (h : 43 ≤ len s)
    (h0 : (Split s ';')[0]? = some addr) (h1 : (Split s ';')[1]? = some name)
    (hfetch : GetSourceCode env w.requests (env.HexToAddress addr) = .ret (code, some err)) :
    iteration env s w =
      (none, ((w.log (Event.Trace addr name)).get
        (pageURL env (env.HexToAddress addr))).log (Event.Info name addr err)) := by
  rw [iteration_record env w h h0 h1, hfetch]

/-- The actions that a pass appends stand, in the whole run, right behind the actions of
the earlier lines. -/
theorem run_events_from (env : Env) (pre post : List GoString) (s : GoString) (w : World)
    (hpre : (loop env pre w).1 = none) (E : List Event)
    (h : ∃ r, (iteration env s (loop env pre w).2).2.events =
      (loop env pre w).2.events ++ E ++ r) :
    ∃ rest, (loop env (pre ++ s :: post) w).2.events =
      (loop env pre w).2.events ++ E ++ rest := by
  obtain ⟨r, hr⟩ := h
  rw [run_split env pre post s w hpre]
  rcases hi : iteration env s (loop env pre w).2 with ⟨_ | p, w2⟩
  · rw [hi] at hr
    obtain ⟨r2, hr2⟩ := loop_events_extend env post w2
    refine ⟨r ++ r2, ?_⟩
    simp only at hr hr2 ⊢
    rw [hr2, hr, List.append_assoc]
  · rw [hi] at hr
    exact ⟨r, hr⟩

/-- A pass over a record starts with the trace line and the request. -/
theorem iteration_events_start (env : Env) {s addr name : GoString} (w : World)
    (h : 43 ≤ len s)
    (h0 : (Split s ';')[0]? = some addr) (h1 : (Split s ';')[1]? = some name) :
    ∃ r, (iteration env s w).2.events =
      w.events ++ [Event.Trace addr name, Event.Get (pageURL env (env.HexToAddress addr))]
        ++ r := by
  rw [iteration_record env w h h0 h1]
  rcases GetSourceCode env w.requests (env.HexToAddress addr) with ⟨code, _ | err⟩ | p
  · exact ⟨[Event.WriteFile (outputPath name) (code ++ "\n//".toList ++ addr)],
      by simp [WriteFile_events, World.log, World.get]⟩
  · exact ⟨[Event.Info name addr err], by simp [World.log, World.get]⟩
  · exact ⟨[], by simp [World.log, World.get]⟩

/-- A text without `&` is left as it is. -/
theorem unescapeFrom_of_not_mem (tb : Tables) (s : GoString) (h : '&' ∉ s) :
    unescapeFrom tb 0 s = s := by
  induction s with
  | nil => rfl
  | cons c cs ih =>
    simp only [List.mem_cons, not_or] at h
    have hc : c ≠ '&' := fun e => h.1 e.symm
    rw [unescapeFrom_plain tb c cs hc, ih h.2]

theorem urls_of_recordEvents (env : Env) (k : Nat) (s : GoString) :
    (recordEvents env k s).filterMap Event.url? = [pageURL env (env.HexToAddress (addrOf s))] := by
  unfold recordEvents
  rcases fetchOf env k s with ⟨code, _ | err⟩ | p <;> simp [Event.url?]

theorem urls_of_records (env : Env) (ls : List GoString) (k : Nat) :
    ((List.enumFrom k ls).flatMap (fun p => recordEvents env p.1 p.2)).filterMap Event.url? =
      ls.map (fun l => pageURL env (env.HexToAddress (addrOf l))) := by
  induction ls generalizing k with
  | nil => rfl
  | cons s ss ih =>
    simp only [List.enumFrom, List.flatMap_cons, List.filterMap_append, List.map_cons,
      urls_of_recordEvents, ih]
    rfl

/-- Claim C1. A record of the listing whose fetch succeeds with text `T`: the actions of
the run continue, behind those of the earlier lines, with the trace line, the request
and one call of `ioutil.WriteFile` whose data is `T`, then `"\n//"`, then the address
token as it stands in the line; and when the system carries that write out in full, the
file it opened holds exactly this data right after the pass. -/
theorem written_data_is_text_newline_slashes_addr (env : Env) (info : GoString) (w : World)
    (pre post : List GoString) (s addr name T : GoString)
    (hsplit : Split info '\n' = pre ++ s :: post)
    (hpre : (loop env pre w).1 = none)
    (hlen : 43 ≤ len s)
    (h0 : (Split s ';')[0]? = some addr) (h1 : (Split s ';')[1]? = some name)
    (hfetch : GetSourceCode env (loop env pre w).2.requests (env.HexToAddress addr) =
      .ret (T, none)) :
    (∃ rest, (GetAllSourceCode env info w).2.events =
      (loop env pre w).2.events ++
        [Event.Trace addr name, Event.Get (pageURL env (env.HexToAddress addr)),
          Event.WriteFile ("./erc20/".toList ++ name ++ ".sol".toList)
            (T ++ "\n//".toList ++ addr)] ++ rest) ∧
      (∀ f : FileId,
        env.WriteFile (loop env pre w).2.writes ("./erc20/".toList ++ name ++ ".sol".toList)
            (T ++ "\n//".toList ++ addr) = some (f, T ++ "\n//".toList ++ addr) →
          (iteration env s (loop env pre w).2).2.files f = some (T ++ "\n//".toList ++ addr)) := by
  have hit := iteration_success env (loop env pre w).2 hlen h0 h1 hfetch
  refine ⟨?_, ?_⟩
  · unfold GetAllSourceCode
    rw [hsplit]
    refine run_events_from env pre post s w hpre _ ⟨[], ?_⟩
    rw [hit]
    simp [WriteFile_events, World.log, World.get, outputPath]
  · intro f hw
    rw [hit]
    exact WriteFile_files_self env _ _ _ _ f hw

/-- Claim C2. A line of the listing of at least 43 bytes that contains a `;`: the address
token is the text before the first `;`, the name token is the text behind the first `;`
up to the second `;` or to the end of the line; the run of `GetAllSourceCode` continues,
behind the actions of the earlier lines, with the trace line of these two tokens and
the request for the normalised address token; and whatever stands behind a second `;`
has no part in the two tokens. -/
theorem tokens_are_cut_at_first_and_second_semicolon (env : Env) (info : GoString)
    (w : World) (pre post : List GoString) (s : GoString)
    (hsplit : Split info '\n' = pre ++ s :: post)
    (hpre : (loop env pre w).1 = none)
    (hlen : 43 ≤ len s) (hs : ';' ∈ s) :
    (Split s ';')[0]? = some (s.takeWhile (fun c => c != ';')) ∧
      (Split s ';')[1]? =
        some ((s.dropWhile (fun c => c != ';')).tail.takeWhile (fun c => c != ';')) ∧
      (∃ rest, (GetAllSourceCode env info w).2.events =
        (loop env pre w).2.events ++
          [Event.Trace (s.takeWhile (fun c => c != ';'))
              ((s.dropWhile (fun c => c != ';')).tail.takeWhile (fun c => c != ';')),
            Event.Get (pageURL env (env.HexToAddress (s.takeWhile (fun c => c != ';'))))] ++
          rest) ∧
      (∀ a n : GoString, ';' ∉ a → ';' ∉ n → s = a ++ ';' :: n →
        (Split s ';')[0]? = some a ∧ (Split s ';')[1]? = some n) ∧
      (∀ a n r : GoString, ';' ∉ a → ';' ∉ n → s = a ++ ';' :: (n ++ ';' :: r) →
        (Split s ';')[0]? = some a ∧ (Split s ';')[1]? = some n) := by
  have h0 := Split_head s ';'
  have h1 := Split_second hs
  refine ⟨h0, h1, ?_, ?_, ?_⟩
  · unfold GetAllSourceCode
    rw [hsplit]
    exact run_events_from env pre post s w hpre _
      (iteration_events_start env (loop env pre w).2 hlen h0 h1)
  · intro a n ha hn e
    rw [e, Split_cut _ _ _ ha, Split_of_not_mem hn]
    simp
  · intro a n r ha hn e
    rw [e, Split_cut _ _ _ ha, Split_cut _ _ _ hn]
    simp

set_option maxRecDepth 100000

/-- Claim C3 as stated fails. The line `lineUSDT` has 42 characters and 48 bytes; the
run on it makes a request, the run on the listing without the lines of fewer than 43
characters makes none. -/
theorem line_short_in_characters_is_fetched :
    lineUSDT.length < 43 ∧
      (GetAllSourceCode (sampleEnv []) lineUSDT emptyWorld).2.events ≠
        (GetAllSourceCode (sampleEnv []) (dropShortCharacters lineUSDT) emptyWorld).2.events := by
  decide

/-- Claim C3, amended. The lines of fewer than 43 bytes cause nothing: the run on a
listing ends as the run on the listing without these lines does, with the same
requests, file writes, messages and files, and the same panic if any. -/
theorem lines_short_in_bytes_are_skipped (env : Env) (info : GoString) (w : World) :
    GetAllSourceCode env (dropShort info) w = GetAllSourceCode env info w := by
  unfold GetAllSourceCode dropShort
  rw [← loop_filter env (Split info '\n') w]
  by_cases hnil : (Split info '\n').filter (fun s => decide (43 ≤ len s)) = []
  · rw [hnil]
    have e : Split (Join [] '\n') '\n' = [[]] := rfl
    rw [e]
    rfl
  · rw [Split_Join _ _ _ hnil]
    intro l hl
    exact not_mem_of_mem_Split '\n' info.length info (Nat.le_refl _) l (List.mem_of_mem_filter hl)

/-- Claim C4 as stated fails. Three well-formed records: the fetch of the first returns
an error, the page of the second has an `#editor` without child, the page of the third
shows a source.  The run panics in the second fetch and never requests the third. -/
theorem failed_fetch_then_panic_stops_the_batch :
    (∀ l ∈ Split (Join [lineCAT, lineJ8T, lineOMG] '\n') '\n', 43 ≤ len l ∧ ';' ∈ l) ∧
      fetchOf (sampleEnv [.error ⟨"timeout"⟩, .ok emptyEditorPage, .ok (sourcePage "contract C")])
        0 lineCAT = .ret ([], some ⟨"timeout"⟩) ∧
      (GetAllSourceCode
        (sampleEnv [.error ⟨"timeout"⟩, .ok emptyEditorPage, .ok (sourcePage "contract C")])
        (Join [lineCAT, lineJ8T, lineOMG] '\n') emptyWorld).1 = some .nilDereference ∧
      Event.Get (pageURL
          (sampleEnv [.error ⟨"timeout"⟩, .ok emptyEditorPage, .ok (sourcePage "contract C")])
          (sampleHexToAddress (addrOf lineOMG))) ∉
        (GetAllSourceCode
          (sampleEnv [.error ⟨"timeout"⟩, .ok emptyEditorPage, .ok (sourcePage "contract C")])
          (Join [lineCAT, lineJ8T, lineOMG] '\n') emptyWorld).2.events := by
  decide

/-- Claim C4, amended. A listing of well-formed records none of whose fetches panics, and
a record of it whose fetch returns an error: the run ends normally, every record of the
listing is requested, every record whose fetch succeeds has its file written, and the
actions of the failed record are the trace line, the request and the failure message,
without a file write. -/
theorem failed_fetch_does_not_stop_the_batch (env : Env) (info : GoString) (w : World)
    (hwf : ∀ l ∈ Split info '\n', 43 ≤ len l ∧ ';' ∈ l)
    (hnp : ∀ p ∈ List.enumFrom w.requests (Split info '\n'),
      (fetchOf env p.1 p.2).isPanic = false)
    (N : Nat × GoString) (hN : N ∈ List.enumFrom w.requests (Split info '\n'))
    (code : GoString) (err : Error) (herr : fetchOf env N.1 N.2 = .ret (code, some err)) :
    (GetAllSourceCode env info w).1 = none ∧
      (∀ p ∈ List.enumFrom w.requests (Split info '\n'),
        Event.Get (pageURL env (env.HexToAddress (addrOf p.2))) ∈
          (GetAllSourceCode env info w).2.events.drop w.events.length) ∧
      (∀ p ∈ List.enumFrom w.requests (Split info '\n'), ∀ T : GoString,
        fetchOf env p.1 p.2 = .ret (T, none) →
          Event.WriteFile (outputPath (nameOf p.2)) (T ++ "\n//".toList ++ addrOf p.2) ∈
            (GetAllSourceCode env info w).2.events.drop w.events.length) ∧
      (GetAllSourceCode env info w).2.events.drop w.events.length =
        (List.enumFrom w.requests (Split info '\n')).flatMap
          (fun p => recordEvents env p.1 p.2) ∧
      recordEvents env N.1 N.2 =
        [Event.Trace (addrOf N.2) (nameOf N.2),
          Event.Get (pageURL env (env.HexToAddress (addrOf N.2))),
          Event.Info (nameOf N.2) (addrOf N.2) err] ∧
      Event.Info (nameOf N.2) (addrOf N.2) err ∈
        (GetAllSourceCode env info w).2.events.drop w.events.length := by
  obtain ⟨r1, _, r3⟩ := loop_records env (Split info '\n') w hwf hnp
  have hdrop : (GetAllSourceCode env info w).2.events.drop w.events.length =
      (List.enumFrom w.requests (Split info '\n')).flatMap
        (fun p => recordEvents env p.1 p.2) := by
    unfold GetAllSourceCode
    rw [r3, List.drop_left]
  refine ⟨r1, ?_, ?_, hdrop, ?_, ?_⟩
  · intro p hp
    rw [hdrop, List.mem_flatMap]
    exact ⟨p, hp, by simp [recordEvents]⟩
  · intro p hp T hT
    rw [hdrop, List.mem_flatMap]
    exact ⟨p, hp, by simp [recordEvents, hT]⟩
  · simp [recordEvents, herr]
  · rw [hdrop, List.mem_flatMap]
    exact ⟨N, hN, by simp [recordEvents, herr]⟩

/-- Claim C5. A page that was retrieved and parsed and in which nothing matches `#editor`:
`GetSourceCode` returns the empty string and the error `not found`; and for a record of
the listing with such a page, the actions of the run continue with the trace line, the
request and the failure message, and the pass over the record leaves all files as they
were. -/
theorem no_editor_gives_not_found_and_no_file (env : Env) (info : GoString) (w : World)
    (pre post : List GoString) (s addr name : GoString) (doc : Node)
    (hsplit : Split info '\n' = pre ++ s :: post)
    (hpre : (loop env pre w).1 = none)
    (hlen : 43 ≤ len s)
    (h0 : (Split s ';')[0]? = some addr) (h1 : (Split s ';')[1]? = some name)
    (hdoc : env.NewDocument (loop env pre w).2.requests (pageURL env (env.HexToAddress addr)) =
      .ok doc)
    (hnone : Find doc (idSelector "editor".toList) = []) :
    (∀ (k : Nat) (tokenAddr : Address) (d : Node),
        env.NewDocument k (pageURL env tokenAddr) = .ok d →
        Find d (idSelector "editor".toList) = [] →
        GetSourceCode env k tokenAddr = .ret ([], some ⟨"not found"⟩)) ∧
      (∃ rest, (GetAllSourceCode env info w).2.events =
        (loop env pre w).2.events ++
          [Event.Trace addr name, Event.Get (pageURL env (env.HexToAddress addr)),
            Event.Info name addr ⟨"not found"⟩] ++ rest) ∧
      (iteration env s (loop env pre w).2).2.files = (loop env pre w).2.files := by
  have hget : ∀ (k : Nat) (tokenAddr : Address) (d : Node),
      env.NewDocument k (pageURL env tokenAddr) = .ok d →
      Find d (idSelector "editor".toList) = [] →
      GetSourceCode env k tokenAddr = .ret ([], some ⟨"not found"⟩) := by
    intro k tokenAddr d hd hf
    simp only [GetSourceCode, hd, hf]
    rfl
  have hit := iteration_failure env (loop env pre w).2 hlen h0 h1 (hget _ _ _ hdoc hnone)
  refine ⟨hget, ?_, ?_⟩
  · unfold GetAllSourceCode
    rw [hsplit, run_split env pre post s w hpre, hit]
    obtain ⟨rest, hrest⟩ := loop_events_extend env post
      ((((loop env pre w).2.log (Event.Trace addr name)).get
        (pageURL env (env.HexToAddress addr))).log (Event.Info name addr ⟨"not found"⟩))
    refine ⟨rest, ?_⟩
    simp only at hrest ⊢
    rw [hrest]
    simp [World.log, World.get]
  · rw [hit]
    rfl

/-- Claim C6. A page in which something matches `#editor` and the first match has a first
child with data `D`: `GetSourceCode` returns, without error, `D` decoded by
`html.UnescapeString`, whatever the further matches and the further children are.  In
the returned text every `&amp;` of `D` has become `&` and every `&lt;` has become `<`,
what stands before and behind it being decoded on its own; a `D` without `&` is
returned as it is. -/
theorem source_is_unescaped_data_of_first_child (env : Env) (k : Nat) (tokenAddr : Address)
    (doc node child : Node) (others siblings : List Node)
    (hdoc : env.NewDocument k (pageURL env tokenAddr) = .ok doc)
    (hfind : Find doc (idSelector "editor".toList) = node :: others)
    (hchild : node.children = child :: siblings) :
    GetSourceCode env k tokenAddr = .ret (UnescapeString env.tables child.Data, none) ∧
      (∀ x y : GoString, child.Data = x ++ "&amp;".toList ++ y →
        GetSourceCode env k tokenAddr =
          .ret (UnescapeString env.tables x ++ '&' :: UnescapeString env.tables y, none)) ∧
      (∀ x y : GoString, child.Data = x ++ "&lt;".toList ++ y →
        GetSourceCode env k tokenAddr =
          .ret (UnescapeString env.tables x ++ '<' :: UnescapeString env.tables y, none)) ∧
      ('&' ∉ child.Data → GetSourceCode env k tokenAddr = .ret (child.Data, none)) := by
  have h : GetSourceCode env k tokenAddr =
      .ret (UnescapeString env.tables child.Data, none) := by
    simp only [GetSourceCode, hdoc, hfind, Node.FirstChild, hchild, List.head?_cons]
  refine ⟨h, ?_, ?_, ?_⟩
  · intro x y e
    rw [h, e, UnescapeString_amp]
  · intro x y e
    rw [h, e, UnescapeString_lt]
  · intro hp
    rw [h]
    unfold UnescapeString
    rw [unescapeFrom_of_not_mem env.tables _ hp]

/-- Claim C10. A page in which the first match of `#editor` has no child:
`GetSourceCode` does not return, neither a string nor an error; it panics on the
dereference of the nil first child. -/
theorem editor_without_child_panics (env : Env) (k : Nat) (tokenAddr : Address)
    (doc node : Node) (others : List Node)
    (hdoc : env.NewDocument k (pageURL env tokenAddr) = .ok doc)
    (hfind : Find doc (idSelector "editor".toList) = node :: others)
    (hchild : node.children = []) :
    GetSourceCode env k tokenAddr = .panic .nilDereference ∧
      ∀ r : GoString × Option Error, GetSourceCode env k tokenAddr ≠ .ret r := by
  have h : GetSourceCode env k tokenAddr = .panic .nilDereference := by
    simp only [GetSourceCode, hdoc, hfind, Node.FirstChild, hchild, List.head?_nil]
  refine ⟨h, ?_⟩
  intro r hr
  rw [h] at hr
  cases hr

/-- Claim C7 as stated fails. In a file system whose directory `erc20` has no
subdirectory, the record named `A/B Token` is fetched with success and its write is
called, but no file holds anything when the run is over; and of the two records named
`X` and `./X`, both fetched with success, the second leaves its data in the file that
the path `./erc20/X.sol` of the first opens. -/
theorem write_can_fail_or_reach_the_file_of_another_name :
    fetchOf (sampleEnv [.ok (sourcePage "contract C")]) 0 lineSlash =
        .ret ("contract C".toList, none) ∧
      (GetAllSourceCode (sampleEnv [.ok (sourcePage "contract C")]) lineSlash
          emptyWorld).2.events =
        [Event.Trace "0x56ba2ee7890461f463f7be02aac3099f6d5811a8".toList "A/B Token".toList,
          Event.Get
            "https://etherscan.io/address/0x56ba2ee7890461f463f7be02aac3099f6d5811a8".toList,
          Event.WriteFile "./erc20/A/B Token.sol".toList
            "contract C\n//0x56ba2ee7890461f463f7be02aac3099f6d5811a8".toList] ∧
      (∀ f : FileId, (GetAllSourceCode (sampleEnv [.ok (sourcePage "contract C")]) lineSlash
          emptyWorld).2.files f = none) ∧
      nameOf lineX ≠ nameOf lineDotX ∧
      sampleWriteFile 1 "./erc20/X.sol".toList [] = some (⟨"erc20/X.sol".toList⟩, []) ∧
      (GetAllSourceCode
          (sampleEnv [.ok (sourcePage "contract Old"), .ok (sourcePage "contract New")])
          (Join [lineX, lineDotX] '\n') emptyWorld).2.files ⟨"erc20/X.sol".toList⟩ =
        some "contract New\n//0x0d262e5dc4a06a0f1c90ce79c7a60c09dfc884e4".toList := by
  refine ⟨by decide, by decide, fun f => rfl, by decide, by decide, by decide⟩

/-- Claim C7, amended. A record of the listing with name token `name` whose fetch
succeeds: `ioutil.WriteFile` is called on the path `"./erc20/" + name + ".sol"` with the
data of the record.  When the system carries that write out in full, to the file `f`,
and no line behind the record has an output path that opens `f`, then `f` holds the data
of this record when the run is over, whatever it held before and whatever the earlier
lines, among them earlier records of the same name, have written to it; and the pass
over the record changes no file other than `f`. -/
theorem later_record_overwrites_file_of_same_name (env : Env) (info : GoString) (w : World)
    (pre post : List GoString) (s addr name T : GoString) (f : FileId)
    (hsplit : Split info '\n' = pre ++ s :: post)
    (hpre : (loop env pre w).1 = none)
    (hlen : 43 ≤ len s)
    (h0 : (Split s ';')[0]? = some addr) (h1 : (Split s ';')[1]? = some name)
    (hfetch : GetSourceCode env (loop env pre w).2.requests (env.HexToAddress addr) =
      .ret (T, none))
    (hwrite : env.WriteFile (loop env pre w).2.writes
        ("./erc20/".toList ++ name ++ ".sol".toList) (T ++ "\n//".toList ++ addr) =
      some (f, T ++ "\n//".toList ++ addr))
    (hlater : ∀ l ∈ post, 43 ≤ len l →
      ∀ k d c, env.WriteFile k (outputPath (nameOf l)) d ≠ some (f, c)) :
    (∃ rest, (GetAllSourceCode env info w).2.events =
      (loop env pre w).2.events ++
        [Event.Trace addr name, Event.Get (pageURL env (env.HexToAddress addr)),
          Event.WriteFile ("./erc20/".toList ++ name ++ ".sol".toList)
            (T ++ "\n//".toList ++ addr)] ++ rest) ∧
      (GetAllSourceCode env info w).2.files f = some (T ++ "\n//".toList ++ addr) ∧
      (∀ g : FileId, g ≠ f →
        (iteration env s (loop env pre w).2).2.files g = (loop env pre w).2.files g) := by
  have hit := iteration_success env (loop env pre w).2 hlen h0 h1 hfetch
  refine ⟨?_, ?_, ?_⟩
  · unfold GetAllSourceCode
    rw [hsplit]
    refine run_events_from env pre post s w hpre _ ⟨[], ?_⟩
    rw [hit]
    simp [WriteFile_events, World.log, World.get, outputPath]
  · unfold GetAllSourceCode
    rw [hsplit, run_split env pre post s w hpre, hit]
    simp only
    rw [loop_files_other env post f _ hlater]
    exact WriteFile_files_self env _ _ _ _ f hwrite
  · intro g hg
    rw [hit]
    simp only
    rw [WriteFile_files_other env _ _ _ g]
    · rfl
    · intro c hc
      have e : env.WriteFile (loop env pre w).2.writes (outputPath name)
          (T ++ "\n//".toList ++ addr) = some (g, c) := hc
      have e2 : env.WriteFile (loop env pre w).2.writes (outputPath name)
          (T ++ "\n//".toList ++ addr) = some (f, T ++ "\n//".toList ++ addr) := hwrite
      rw [e] at e2
      simp only [Option.some.injEq, Prod.mk.injEq] at e2
      exact hg e2.1

/-- Claim C8 fails on the code. A line of 57 bytes in which a comma stands for the
semicolon: the split yields one token, the access to the second token panics with
`index out of range [1] with length 1`, and the record behind that line is never
processed. -/
theorem line_without_semicolon_panics :
    43 ≤ len lineComma ∧
      Split lineComma ';' = [lineComma] ∧
      (GetAllSourceCode (sampleEnv [.ok (sourcePage "contract C")])
        (Join [lineComma, lineCAT] '\n') emptyWorld).1 = some (.indexOutOfRange 1 1) ∧
      (GetAllSourceCode (sampleEnv [.ok (sourcePage "contract C")])
        (Join [lineComma, lineCAT] '\n') emptyWorld).2.events = [] := by
  decide

/-- Claim C9 as stated fails. Two well-formed records, the page of the first with an
`#editor` without child: the run panics in the first fetch, and its requests are not
those of the two lines. -/
theorem panicking_fetch_ends_the_requests :
    (∀ l ∈ Split (Join [lineCAT, lineJ8T] '\n') '\n', 43 ≤ len l ∧ ';' ∈ l) ∧
      (GetAllSourceCode (sampleEnv [.ok emptyEditorPage, .ok (sourcePage "contract C")])
        (Join [lineCAT, lineJ8T] '\n') emptyWorld).2.events.filterMap Event.url? ≠
      (Split (Join [lineCAT, lineJ8T] '\n') '\n').map
        (fun l => pageURL (sampleEnv [.ok emptyEditorPage, .ok (sourcePage "contract C")])
          (sampleHexToAddress (addrOf l))) := by
  decide

/-- Claim C9, amended. A listing of well-formed records none of whose fetches panics: the
run ends normally; its actions are, record after record in the order of the lines, the
trace line, the request for the normalised address token, and then the file write or
the failure message of that record, before the trace line of the next record; the
requests are exactly one per line, in the order of the lines. -/
theorem one_fetch_per_line_in_order (env : Env) (info : GoString) (w : World)
    (hwf : ∀ l ∈ Split info '\n', 43 ≤ len l ∧ ';' ∈ l)
    (hnp : ∀ p ∈ List.enumFrom w.requests (Split info '\n'),
      (fetchOf env p.1 p.2).isPanic = false) :
    (GetAllSourceCode env info w).1 = none ∧
      (GetAllSourceCode env info w).2.events =
        w.events ++ (List.enumFrom w.requests (Split info '\n')).flatMap
          (fun p => recordEvents env p.1 p.2) ∧
      ((GetAllSourceCode env info w).2.events.drop w.events.length).filterMap Event.url? =
        (Split info '\n').map (fun l => pageURL env (env.HexToAddress (addrOf l))) ∧
      (GetAllSourceCode env info w).2.requests = w.requests + (Split info '\n').length := by
  obtain ⟨r1, r2, r3⟩ := loop_records env (Split info '\n') w hwf hnp
  refine ⟨r1, r3, ?_, r2⟩
  unfold GetAllSourceCode
  rw [r3, List.drop_left, urls_of_records]

/-- Witness of C1: the first record of the sample listing, fetched with success and
written in full. -/
theorem written_data_is_text_newline_slashes_addr_witness :
    (∃ rest, (GetAllSourceCode (sampleEnv [.ok (sourcePage "contract C")])
        (Join [lineCAT, lineJ8T] '\n') emptyWorld).2.events =
      (loop (sampleEnv [.ok (sourcePage "contract C")]) [] emptyWorld).2.events ++
        [Event.Trace "0x56ba2ee7890461f463f7be02aac3099f6d5811a8".toList
            "BlockCAT (CAT)".toList,
          Event.Get (pageURL (sampleEnv [.ok (sourcePage "contract C")])
            (sampleHexToAddress "0x56ba2ee7890461f463f7be02aac3099f6d5811a8".toList)),
          Event.WriteFile ("./erc20/".toList ++ "BlockCAT (CAT)".toList ++ ".sol".toList)
            ("contract C".toList ++ "\n//".toList ++
              "0x56ba2ee7890461f463f7be02aac3099f6d5811a8".toList)] ++ rest) ∧
      (iteration (sampleEnv [.ok (sourcePage "contract C")]) lineCAT
          (loop (sampleEnv [.ok (sourcePage "contract C")]) [] emptyWorld).2).2.files
          ⟨"erc20/BlockCAT (CAT).sol".toList⟩ =
        some ("contract C".toList ++ "\n//".toList ++
          "0x56ba2ee7890461f463f7be02aac3099f6d5811a8".toList) :=
  ⟨(written_data_is_text_newline_slashes_addr (sampleEnv [.ok (sourcePage "contract C")])
      (Join [lineCAT, lineJ8T] '\n') emptyWorld [] [lineJ8T] lineCAT
      "0x56ba2ee7890461f463f7be02aac3099f6d5811a8".toList "BlockCAT (CAT)".toList
      "contract C".toList (by decide) (by decide) (by decide) (by decide) (by decide)
      (by decide)).1,
    (written_data_is_text_newline_slashes_addr (sampleEnv [.ok (sourcePage "contract C")])
      (Join [lineCAT, lineJ8T] '\n') emptyWorld [] [lineJ8T] lineCAT
      "0x56ba2ee7890461f463f7be02aac3099f6d5811a8".toList "BlockCAT (CAT)".toList
      "contract C".toList (by decide) (by decide) (by decide) (by decide) (by decide)
      (by decide)).2 ⟨"erc20/BlockCAT (CAT).sol".toList⟩ (by decide)⟩

/-- Witness of C2: the second record of the sample listing. -/
theorem tokens_are_cut_at_first_and_second_semicolon_witness :
    (Split lineJ8T ';')[0]? = some "0x0d262e5dc4a06a0f1c90ce79c7a60c09dfc884e4".toList ∧
      (Split lineJ8T ';')[1]? = some "J8T (J8T)".toList ∧
      ∃ rest, (GetAllSourceCode (sampleEnv [.ok (sourcePage "contract C")])
          (Join [lineCAT, lineJ8T] '\n') emptyWorld).2.events =
        (loop (sampleEnv [.ok (sourcePage "contract C")]) [lineCAT] emptyWorld).2.events ++
          [Event.Trace (lineJ8T.takeWhile (fun c => c != ';'))
              ((lineJ8T.dropWhile (fun c => c != ';')).tail.takeWhile (fun c => c != ';')),
            Event.Get (pageURL (sampleEnv [.ok (sourcePage "contract C")])
              (sampleHexToAddress (lineJ8T.takeWhile (fun c => c != ';'))))] ++ rest :=
  ⟨(tokens_are_cut_at_first_and_second_semicolon (sampleEnv [.ok (sourcePage "contract C")])
      (Join [lineCAT, lineJ8T] '\n') emptyWorld [lineCAT] [] lineJ8T
      (by decide) (by decide) (by decide) (by decide)).1,
    (tokens_are_cut_at_first_and_second_semicolon (sampleEnv [.ok (sourcePage "contract C")])
      (Join [lineCAT, lineJ8T] '\n') emptyWorld [lineCAT] [] lineJ8T
      (by decide) (by decide) (by decide) (by decide)).2.1,
    (tokens_are_cut_at_first_and_second_semicolon (sampleEnv [.ok (sourcePage "contract C")])
      (Join [lineCAT, lineJ8T] '\n') emptyWorld [lineCAT] [] lineJ8T
      (by decide) (by decide) (by decide) (by decide)).2.2.1⟩

/-- Witness of C4: three records, the fetch of the first fails, the run goes on. -/
theorem failed_fetch_does_not_stop_the_batch_witness :
    (GetAllSourceCode
      (sampleEnv [.error ⟨"timeout"⟩, .ok (sourcePage "contract C"), .ok plainPage])
      (Join [lineCAT, lineJ8T, lineOMG] '\n') emptyWorld).1 = none :=
  (failed_fetch_does_not_stop_the_batch
    (sampleEnv [.error ⟨"timeout"⟩, .ok (sourcePage "contract C"), .ok plainPage])
    (Join [lineCAT, lineJ8T, lineOMG] '\n') emptyWorld (by decide) (by decide)
    (0, lineCAT) (by decide) [] ⟨"timeout"⟩ (by decide)).1

/-- Witness of C5: a one-line listing whose page has no `#editor`. -/
theorem no_editor_gives_not_found_and_no_file_witness :
    (iteration (sampleEnv [.ok plainPage]) lineCAT
        (loop (sampleEnv [.ok plainPage]) [] emptyWorld).2).2.files =
      (loop (sampleEnv [.ok plainPage]) [] emptyWorld).2.files :=
  (no_editor_gives_not_found_and_no_file (sampleEnv [.ok plainPage]) lineCAT emptyWorld
    [] [] lineCAT "0x56ba2ee7890461f463f7be02aac3099f6d5811a8".toList "BlockCAT (CAT)".toList
    plainPage (by decide) (by decide) (by decide) (by decide) (by decide) rfl rfl).2.2

/-- Witness of C6: a page whose `#editor` holds a text with entities. -/
theorem source_is_unescaped_data_of_first_child_witness :
    GetSourceCode (sampleEnv [.ok (sourcePage "a &amp; b &lt; c")]) 0
        (sampleHexToAddress lineCAT) =
      .ret ("a & b < c".toList, none) :=
  (source_is_unescaped_data_of_first_child (sampleEnv [.ok (sourcePage "a &amp; b &lt; c")]) 0
    (sampleHexToAddress lineCAT) (sourcePage "a &amp; b &lt; c")
    (editor [text "a &amp; b &lt; c"]) (text "a &amp; b &lt; c") [] [] rfl rfl rfl).1

/-- Witness of C7: two records of the same name, both fetched with success and written
in full to the same file. -/
theorem later_record_overwrites_file_of_same_name_witness :
    (loop (sampleEnv [.ok (sourcePage "contract Old"), .ok (sourcePage "contract New")])
        [lineCAT] emptyWorld).2.files ⟨"erc20/BlockCAT (CAT).sol".toList⟩ =
      some "contract Old\n//0x56ba2ee7890461f463f7be02aac3099f6d5811a8".toList ∧
    (GetAllSourceCode
        (sampleEnv [.ok (sourcePage "contract Old"), .ok (sourcePage "contract New")])
        (Join [lineCAT, lineCAT2] '\n') emptyWorld).2.files
        ⟨"erc20/BlockCAT (CAT).sol".toList⟩ =
      some ("contract New".toList ++ "\n//".toList ++
        "0x0D262E5DC4A06A0F1C90CE79C7A60C09DFC884E4".toList) :=
  ⟨by decide,
    (later_record_overwrites_file_of_same_name
      (sampleEnv [.ok (sourcePage "contract Old"), .ok (sourcePage "contract New")])
      (Join [lineCAT, lineCAT2] '\n') emptyWorld [lineCAT] [] lineCAT2
      "0x0D262E5DC4A06A0F1C90CE79C7A60C09DFC884E4".toList "BlockCAT (CAT)".toList
      "contract New".toList ⟨"erc20/BlockCAT (CAT).sol".toList⟩
      (by decide) (by decide) (by decide) (by decide) (by decide)
      (by decide) (by decide) (fun l hl => absurd hl (List.not_mem_nil l))).2.1⟩

/-- Witness of C9: three records without a panicking fetch. -/
theorem one_fetch_per_line_in_order_witness :
    (GetAllSourceCode
      (sampleEnv [.error ⟨"timeout"⟩, .ok (sourcePage "contract C"), .ok plainPage])
      (Join [lineCAT, lineJ8T, lineOMG] '\n') emptyWorld).2.requests =
      emptyWorld.requests + (Split (Join [lineCAT, lineJ8T, lineOMG] '\n') '\n').length :=
  (one_fetch_per_line_in_order
    (sampleEnv [.error ⟨"timeout"⟩, .ok (sourcePage "contract C"), .ok plainPage])
    (Join [lineCAT, lineJ8T, lineOMG] '\n') emptyWorld (by decide) (by decide)).2.2.2

/-- Witness of C10: a page whose `#editor` has no child. -/
theorem editor_without_child_panics_witness :
    GetSourceCode (sampleEnv [.ok emptyEditorPage]) 0 (sampleHexToAddress lineCAT) =
      .panic .nilDereference :=
  (editor_without_child_panics (sampleEnv [.ok emptyEditorPage]) 0 (sampleHexToAddress lineCAT)
    emptyEditorPage (editor []) [] rfl rfl rfl).1

end Etherscan
